import Mathlib

/-!
Shallow embedding of `SimulatedAnnealing.py` (0/1-knapsack simulated
annealing) and proofs of the specification claims.

Modelling conventions:
* Python lists of non-negative ints are `List ℕ`; a solution is a list of
  0/1 entries.
* The process-wide `random` module is an explicit tape (`RandTape`) plus a
  counter advanced by one at every draw, in the source's consumption order.
* Python exceptions (`ValueError` from `randint` on an empty range,
  `ZeroDivisionError` from the greedy sort key) are modelled as `none`.
* Float arithmetic on temperatures is modelled over `ℝ`; the float literal
  `0.15` in the neighbor count is modelled as the exact rational `3 / 20`.
* While-loops are given explicit fuel; the fuel chosen at each call site is
  proven sufficient where needed.
-/

namespace KnapsackSA

/-- Solution vector as in the source: a Python list of 0/1 integers, index
`i` equal to 1 iff item `i` is selected. -/
abbrev Solution := List ℕ

/-- Model of the process-wide `random` module: `ints` drives `random.randint`
and `random.choice` (one value per call), `uniforms` drives `random.random`
(one value per call).  A single counter indexes both tapes and is advanced by
one at every draw, mirroring sequential consumption of the shared
generator. -/
structure RandTape where
  ints : ℕ → ℕ
  uniforms : ℕ → ℝ

/-- Model of `random.randint(lo, hi)`: inclusive on both ends, raising
`ValueError` (modelled as `none`) when `hi < lo`, which happens in the source
exactly when `randint(0, len(neighbor) - 1)` is called with an empty list.
The tape value `t` selects `lo + t % (hi - lo + 1)`, so every tape value
yields an in-range result. -/
def randint (lo hi : ℤ) (t : ℕ) : Option ℤ :=
  if hi < lo then none else some (lo + (t : ℤ) % (hi - lo + 1))

/-- Total weight of a solution as computed inline in `generate_neighbors`:
`sum(neighbor[i] * self.weight[i] for i in range(len(neighbor)))`.
Out-of-range reads default to 0; on valid (equal-length) instances the source
never reads out of range. -/
def solWeight (weight : List ℕ) (sol : Solution) : ℕ :=
  ∑ i ∈ Finset.range sol.length, sol.getD i 0 * weight.getD i 0

/-- Source `calculate_cost`:
`sum(solution[i] * self.profit[i] for i in range(len(solution)))`. -/
def calculate_cost (profit : List ℕ) (solution : Solution) : ℕ :=
  ∑ i ∈ Finset.range solution.length, solution.getD i 0 * profit.getD i 0

/-- Source `calculate_number_of_neighbors`: `max(1, int(amount * 0.15))`, the
float literal `0.15` modelled as the exact rational `3 / 20` and `int`
truncation of a non-negative value as natural division. -/
def calculate_number_of_neighbors (amount : ℕ) : ℕ :=
  max 1 (3 * amount / 20)

/-- List `[i for i in range(len(neighbor)) if neighbor[i] == 1]` built at each
repair step of `generate_neighbors`. -/
def indicesOne (nb : Solution) : List ℕ :=
  (List.range nb.length).filter (fun i => nb.getD i 0 == 1)

/-- Repair loop of `generate_neighbors`: `while weight > self.capacity`, pick
a random currently-selected index (`random.choice`), deselect it and subtract
its weight, stopping early when no index is selected.  Each pass clears one
selected entry, so `nb.length` iterations always suffice; the explicit fuel
only makes the recursion structural and is never exhausted at the fuel used
by the call site. -/
def repairGo (weight : List ℕ) (capacity : ℕ) (tape : RandTape) :
    ℕ → Solution → ℕ → ℕ → Solution × ℕ × ℕ
  | 0, nb, wt, ctr => (nb, wt, ctr)
  | fuel + 1, nb, wt, ctr =>
    if wt ≤ capacity then (nb, wt, ctr)
    else
      let ones := indicesOne nb
      if ones = [] then (nb, wt, ctr)
      else
        let i := ones.getD (tape.ints ctr % ones.length) 0
        repairGo weight capacity tape fuel (nb.set i 0) (wt - weight.getD i 0) (ctr + 1)

/-- One iteration of the generation loop in `generate_neighbors`: copy the
solution, flip a uniformly random position (`neighbor[i] = 1 - neighbor[i]`;
truncated `1 - v` on ℕ agrees with Python on the 0/1 entries that occur), then
recompute the weight and repair while over capacity. -/
def generate_one_neighbor (weight : List ℕ) (capacity : ℕ) (tape : RandTape)
    (solution : Solution) (ctr : ℕ) : Option (Solution × ℕ) :=
  match randint 0 ((solution.length : ℤ) - 1) (tape.ints ctr) with
  | none => none
  | some iz =>
    let i := iz.toNat
    let nb := solution.set i (1 - solution.getD i 0)
    let wt := solWeight weight nb
    let out := repairGo weight capacity tape nb.length nb wt (ctr + 1)
    some (out.1, out.2.2)

/-- Generation loop of `generate_neighbors`, run `k` times, collecting the
neighbors in generation order. -/
def generate_neighbors_go (weight : List ℕ) (capacity : ℕ) (tape : RandTape)
    (solution : Solution) : ℕ → ℕ → Option (List Solution × ℕ)
  | 0, ctr => some ([], ctr)
  | k + 1, ctr =>
    match generate_one_neighbor weight capacity tape solution ctr with
    | none => none
    | some nb1 =>
      match generate_neighbors_go weight capacity tape solution k nb1.2 with
      | none => none
      | some nbs2 => some (nb1.1 :: nbs2.1, nbs2.2)

/-- Source `generate_neighbors`: `self.neighbors_amount` perturbations of
`solution`, each one bit-flip plus capacity repair.  `none` models the
`ValueError` raised by `random.randint(0, -1)` on an empty solution. -/
def generate_neighbors (weight : List ℕ) (capacity k : ℕ) (tape : RandTape)
    (solution : Solution) (ctr : ℕ) : Option (List Solution × ℕ) :=
  generate_neighbors_go weight capacity tape solution k ctr

/-- Sort key `self.profit[i] / self.weight[i]` of `generate_initial_solution`,
as an exact rational (only consulted when every weight is non-zero). -/
def ratio (profit weight : List ℕ) (i : ℕ) : ℚ :=
  (profit.getD i 0 : ℚ) / (weight.getD i 0 : ℚ)

/-- Greedy accumulation loop of `generate_initial_solution`: for each index in
ranked order, select it whenever it still fits. -/
def greedyFold (weight : List ℕ) (capacity : ℕ) (items : List ℕ)
    (start : Solution) : Solution × ℕ :=
  items.foldl
    (fun acc i =>
      if acc.2 + weight.getD i 0 ≤ capacity then (acc.1.set i 1, acc.2 + weight.getD i 0)
      else acc)
    (start, 0)

/-- Source `generate_initial_solution`: rank `range(self.amount)` by
profit-to-weight ratio descending (Python's `sorted(..., reverse=True)` is
stable; modelled by stable merge sort with relation `ratio j ≤ ratio i`), then
greedily select items that fit.  Evaluating the sort key divides by
`self.weight[i]` for every index, so an instance containing an item of weight
0 raises `ZeroDivisionError`, modelled as `none`. -/
def generate_initial_solution (capacity : ℕ) (profit weight : List ℕ) : Option Solution :=
  let amount := profit.length
  if (List.range amount).any (fun i => weight.getD i 0 == 0) then none
  else
    let items := (List.range amount).mergeSort
      (fun i j => decide (ratio profit weight j ≤ ratio profit weight i))
    some (greedyFold weight capacity items (List.replicate amount 0)).1

/-- Source `initial_temperature`: the mean cost of one generated neighborhood
of the given solution, with fallback 1 on an empty cost list (the source
defends against that structurally impossible case). -/
noncomputable def initial_temperature (profit weight : List ℕ) (capacity k : ℕ)
    (tape : RandTape) (solution : Solution) (ctr : ℕ) : Option (ℝ × ℕ) :=
  match generate_neighbors weight capacity k tape solution ctr with
  | none => none
  | some nbs1 =>
    let neighbors_cost := nbs1.1.map (calculate_cost profit)
    some (if neighbors_cost = [] then 1 else
      (neighbors_cost.sum : ℝ) / (neighbors_cost.length : ℝ), nbs1.2)

/-- Source `cooling`:
`temperature / (1 + cooling_rate * sqrt(temperature))`. -/
noncomputable def cooling (cooling_rate temperature : ℝ) : ℝ :=
  temperature / (1 + cooling_rate * Real.sqrt temperature)

/-- Configuration fields stored by `__init__`. -/
structure Config where
  cooling_rate : ℝ
  iter_max : ℕ
  T_min : ℝ
  no_improve_limit : ℕ

/-- Model of `__init__`: the parameters are stored exactly as given.  The
constructor body contains no validity check, raises nothing, and no
ConfigurationError is defined anywhere in the source. -/
def SA_init (cooling_rate : ℝ) (iter_max : ℕ) (T_min : ℝ) (no_improve_limit : ℕ) : Config :=
  ⟨cooling_rate, iter_max, T_min, no_improve_limit⟩

/-- Default parameter values of `__init__`:
`cooling_rate=0.02, iter_max=100, T_min=1e-3, no_improve_limit=10`. -/
noncomputable def defaultConfig : Config :=
  SA_init (2 / 100) 100 (1 / 1000) 10

/-- Mutable state of `run`: temperature, the working solution/cost of the
current outer pass, the best-known solution/cost, the no-improvement counter,
the position in the random tape, and the improvement-trace vectors. -/
structure SAState where
  temperature : ℝ
  solution : Solution
  cost : ℕ
  best_solution : Solution
  best_cost : ℕ
  no_improve_count : ℕ
  ctr : ℕ
  best_solutions_vector : List Solution
  best_cost_vector : List ℕ

section
open Classical

/-- Source `check_acceptance`: accept a strict improvement outright; otherwise
draw `random.random()` (one uniform tape value, advancing the counter) and
accept iff the draw is below `exp((new_cost - cost) / temperature)`. -/
noncomputable def check_acceptance (temperature : ℝ) (tape : RandTape)
    (cost new_cost : ℕ) (ctr : ℕ) : Bool × ℕ :=
  if new_cost > cost then (true, ctr)
  else (decide (tape.uniforms ctr <
      Real.exp (((new_cost : ℝ) - (cost : ℝ)) / temperature)), ctr + 1)

/-- Body of `for neighbor in neighbors` in `run`: evaluate the neighbor, run
`check_acceptance` against the working cost, and on acceptance move to the
neighbor, updating the best solution / trace vectors and the no-improvement
counter. -/
noncomputable def accept_neighbor (profit : List ℕ) (tape : RandTape)
    (st : SAState) (neighbor : Solution) : SAState :=
  let new_cost := calculate_cost profit neighbor
  let acc := check_acceptance st.temperature tape st.cost new_cost st.ctr
  if acc.1 then
    if new_cost > st.best_cost then
      { st with
        solution := neighbor
        cost := new_cost
        ctr := acc.2
        best_solution := neighbor
        best_cost := new_cost
        no_improve_count := 0
        best_solutions_vector := st.best_solutions_vector ++ [neighbor]
        best_cost_vector := st.best_cost_vector ++ [new_cost] }
    else
      { st with
        solution := neighbor
        cost := new_cost
        ctr := acc.2
        no_improve_count := st.no_improve_count + 1 }
  else
    { st with ctr := acc.2 }

/-- One inner iteration of `run` before cooling: generate a neighborhood of
the working solution and process every neighbor in order. -/
noncomputable def inner_body (profit weight : List ℕ) (capacity k : ℕ)
    (tape : RandTape) (st : SAState) : Option SAState :=
  match generate_neighbors weight capacity k tape st.solution st.ctr with
  | none => none
  | some nbs1 => some (nbs1.1.foldl (accept_neighbor profit tape) { st with ctr := nbs1.2 })

/-- One full inner iteration of `run`: neighborhood processing followed by
`self.cooling()`. -/
noncomputable def inner_iter (cfg : Config) (profit weight : List ℕ) (capacity k : ℕ)
    (tape : RandTape) (st : SAState) : Option SAState :=
  match inner_body profit weight capacity k tape st with
  | none => none
  | some st1 => some { st1 with temperature := cooling cfg.cooling_rate st1.temperature }

/-- Loop `for _ in range(self.iter_max)` of `run`. -/
noncomputable def inner_loop (cfg : Config) (profit weight : List ℕ) (capacity k : ℕ)
    (tape : RandTape) : ℕ → SAState → Option SAState
  | 0, st => some st
  | m + 1, st =>
    match inner_iter cfg profit weight capacity k tape st with
    | none => none
    | some st1 => inner_loop cfg profit weight capacity k tape m st1

/-- One pass of the outer `while` loop of `run`: reset the working solution
and cost from the best-known ones, then run the inner loop `iter_max`
times. -/
noncomputable def outer_pass (cfg : Config) (profit weight : List ℕ) (capacity k : ℕ)
    (tape : RandTape) (st : SAState) : Option SAState :=
  inner_loop cfg profit weight capacity k tape cfg.iter_max
    { st with solution := st.best_solution, cost := st.best_cost }

/-- Outer loop of `run`
(`while self.temperature > self.T_min and no_improve_count < self.no_improve_limit`)
with explicit fuel: `none` on exhausted fuel or on an error inside the body,
and the best pair once the loop condition fails. -/
noncomputable def run_loop (cfg : Config) (profit weight : List ℕ) (capacity k : ℕ)
    (tape : RandTape) : ℕ → SAState → Option (Solution × ℕ)
  | 0, _ => none
  | fuel + 1, st =>
    if st.temperature > cfg.T_min ∧ st.no_improve_count < cfg.no_improve_limit then
      match outer_pass cfg profit weight capacity k tape st with
      | none => none
      | some st1 => run_loop cfg profit weight capacity k tape fuel st1
    else some (st.best_solution, st.best_cost)

/-- Source `run` on an already-loaded instance (`read_file` is external I/O,
out of scope): compute the neighbor count, build the greedy initial solution,
derive the initial temperature from one neighborhood of it, then run the
outer loop from the initial state. -/
noncomputable def run (cfg : Config) (capacity : ℕ) (profit weight : List ℕ)
    (tape : RandTape) (fuel : ℕ) : Option (Solution × ℕ) :=
  let amount := profit.length
  let k := calculate_number_of_neighbors amount
  match generate_initial_solution capacity profit weight with
  | none => none
  | some best_solution =>
    match initial_temperature profit weight capacity k tape best_solution 0 with
    | none => none
    | some Tctr =>
      let best_cost := calculate_cost profit best_solution
      run_loop cfg profit weight capacity k tape fuel
        { temperature := Tctr.1
          solution := best_solution
          cost := best_cost
          best_solution := best_solution
          best_cost := best_cost
          no_improve_count := 0
          ctr := Tctr.2
          best_solutions_vector := []
          best_cost_vector := [] }

end

/-- Fixed all-zeros random tape, used for concrete evaluations: every integer
draw reads 0 and every uniform draw reads 0.0. -/
def tape0 : RandTape := ⟨fun _ => 0, fun _ => (0 : ℝ)⟩

/-- Concrete search state used by witnesses: temperature 1, working and best
solution `[1]` with cost 0, counters at 0, empty trace. -/
def stA : SAState :=
  ⟨1, [1], 0, [1], 0, 0, 0, [], []⟩

/-- Solutions occurring in the source have 0/1 entries. -/
def IsBinary (sol : Solution) : Prop := ∀ x ∈ sol, x ≤ 1

/-- Number of selected entries: the measure that strictly decreases at every
repair step of `generate_neighbors`. -/
def onesCard (nb : Solution) : ℕ :=
  ((Finset.range nb.length).filter (fun i => nb.getD i 0 = 1)).card

/-- Invariant maintained throughout the search loop: the working and the
best-known solutions are binary and feasible, and both stored costs equal
`calculate_cost` of their solutions. -/
def Inv (profit w : List ℕ) (cap : ℕ) (st : SAState) : Prop :=
  IsBinary st.solution ∧ IsBinary st.best_solution ∧
  solWeight w st.solution ≤ cap ∧ solWeight w st.best_solution ≤ cap ∧
  st.cost = calculate_cost profit st.solution ∧
  st.best_cost = calculate_cost profit st.best_solution

/-! ### Basic facts: indexing, weights, binary vectors -/

lemma isBinary_replicate (n : ℕ) : IsBinary (List.replicate n 0) := by
  intro x hx
  simp [List.eq_of_mem_replicate hx]

lemma isBinary_set {sol : Solution} (h : IsBinary sol) {a : ℕ} (ha : a ≤ 1) (i : ℕ) :
    IsBinary (sol.set i a) := by
  intro x hx
  rcases List.mem_or_eq_of_mem_set hx with hx1 | rfl
  · exact h x hx1
  · exact ha

lemma getD_le_one {sol : Solution} (h : IsBinary sol) (i : ℕ) : sol.getD i 0 ≤ 1 := by
  rcases Nat.lt_or_ge i sol.length with hi | hi
  · rw [List.getD_eq_getElem _ _ hi]
    exact h _ (List.getElem_mem hi)
  · simp [List.getD_eq_getElem?_getD, List.getElem?_eq_none hi]

lemma getD_set_self {l : List ℕ} {i : ℕ} (h : i < l.length) (a : ℕ) :
    (l.set i a).getD i 0 = a := by
  simp [List.getD_eq_getElem?_getD, List.getElem?_set, h]

lemma getD_set_ne {l : List ℕ} {i j : ℕ} (h : i ≠ j) (a d : ℕ) :
    (l.set i a).getD j d = l.getD j d := by
  simp [List.getD_eq_getElem?_getD, List.getElem?_set, h]

lemma solWeight_set {w : List ℕ} {sol : Solution} {i : ℕ} (h : i < sol.length) (a : ℕ) :
    solWeight w (sol.set i a) + sol.getD i 0 * w.getD i 0
      = solWeight w sol + a * w.getD i 0 := by
  unfold solWeight
  rw [List.length_set]
  have hmem : i ∈ Finset.range sol.length := Finset.mem_range.mpr h
  rw [← Finset.add_sum_erase _ (fun j => (sol.set i a).getD j 0 * w.getD j 0) hmem,
    ← Finset.add_sum_erase _ (fun j => sol.getD j 0 * w.getD j 0) hmem]
  have h2 : ∀ j ∈ (Finset.range sol.length).erase i,
      (sol.set i a).getD j 0 * w.getD j 0 = sol.getD j 0 * w.getD j 0 := by
    intro j hj
    rw [getD_set_ne (Ne.symm (Finset.ne_of_mem_erase hj))]
  rw [Finset.sum_congr rfl h2, getD_set_self h]
  ring

lemma term_le_solWeight {w : List ℕ} {sol : Solution} {i : ℕ} (h : i < sol.length) :
    sol.getD i 0 * w.getD i 0 ≤ solWeight w sol := by
  unfold solWeight
  exact Finset.single_le_sum (f := fun j => sol.getD j 0 * w.getD j 0)
    (fun j _ => Nat.zero_le _) (Finset.mem_range.mpr h)

lemma solWeight_set_one_le {w : List ℕ} {sol : Solution} (i : ℕ) :
    solWeight w (sol.set i 1) ≤ solWeight w sol + w.getD i 0 := by
  rcases Nat.lt_or_ge i sol.length with hi | hi
  · have := solWeight_set (w := w) hi 1
    omega
  · rw [List.set_eq_of_length_le hi]
    omega

lemma getD_replicate_zero (n i : ℕ) : (List.replicate n 0).getD i 0 = 0 := by
  rcases Nat.lt_or_ge i n with hi | hi
  · rw [List.getD_eq_getElem _ _ (by simpa using hi), List.getElem_replicate]
  · have hlen : (List.replicate n (0 : ℕ)).length ≤ i := by
      rw [List.length_replicate]; exact hi
    simp [List.getD_eq_getElem?_getD, List.getElem?_eq_none hlen]

lemma solWeight_replicate_zero (w : List ℕ) (n : ℕ) :
    solWeight w (List.replicate n 0) = 0 := by
  unfold solWeight
  exact Finset.sum_eq_zero fun i _ => by rw [getD_replicate_zero]; ring

lemma mem_indicesOne {nb : Solution} {i : ℕ} :
    i ∈ indicesOne nb ↔ i < nb.length ∧ nb.getD i 0 = 1 := by
  simp [indicesOne, List.mem_filter, List.mem_range]

lemma solWeight_eq_zero_of_no_ones {w : List ℕ} {nb : Solution}
    (hb : IsBinary nb) (h : ∀ j, j < nb.length → nb.getD j 0 ≠ 1) :
    solWeight w nb = 0 := by
  unfold solWeight
  apply Finset.sum_eq_zero
  intro i hi
  have hi1 : i < nb.length := Finset.mem_range.mp hi
  have h1 := h i hi1
  have h2 := getD_le_one hb i
  have h0 : nb.getD i 0 = 0 := by omega
  rw [h0]; ring

lemma indicesOne_nil_no_ones {nb : Solution} (h : indicesOne nb = []) :
    ∀ j, j < nb.length → nb.getD j 0 ≠ 1 := by
  intro j hj h1
  have : j ∈ indicesOne nb := mem_indicesOne.mpr ⟨hj, h1⟩
  rw [h] at this
  simp at this

lemma onesCard_le_length (nb : Solution) : onesCard nb ≤ nb.length := by
  unfold onesCard
  calc ((Finset.range nb.length).filter (fun i => nb.getD i 0 = 1)).card
      ≤ (Finset.range nb.length).card := Finset.card_filter_le _ _
    _ = nb.length := Finset.card_range _

lemma onesCard_set_lt {nb : Solution} {i : ℕ} (hi : i < nb.length)
    (h1 : nb.getD i 0 = 1) : onesCard (nb.set i 0) < onesCard nb := by
  unfold onesCard
  rw [List.length_set]
  have hset : (Finset.range nb.length).filter (fun j => (nb.set i 0).getD j 0 = 1)
      = ((Finset.range nb.length).filter (fun j => nb.getD j 0 = 1)).erase i := by
    ext j
    simp only [Finset.mem_filter, Finset.mem_erase, Finset.mem_range]
    constructor
    · rintro ⟨hj, hj1⟩
      rcases eq_or_ne j i with rfl | hne
      · rw [getD_set_self hi] at hj1
        omega
      · rw [getD_set_ne (Ne.symm hne)] at hj1
        exact ⟨hne, hj, hj1⟩
    · rintro ⟨hne, hj, hj1⟩
      rw [getD_set_ne (Ne.symm hne)]
      exact ⟨hj, hj1⟩
  have hmem : i ∈ (Finset.range nb.length).filter (fun j => nb.getD j 0 = 1) := by
    rw [Finset.mem_filter]
    exact ⟨Finset.mem_range.mpr hi, h1⟩
  rw [hset, Finset.card_erase_of_mem hmem]
  have hpos : 0 < ((Finset.range nb.length).filter (fun j => nb.getD j 0 = 1)).card :=
    Finset.card_pos.mpr ⟨i, hmem⟩
  omega

lemma onesCard_zero_no_ones {nb : Solution} (h : onesCard nb = 0) :
    ∀ j, j < nb.length → nb.getD j 0 ≠ 1 := by
  intro j hj h1
  have hmem : j ∈ (Finset.range nb.length).filter (fun i => nb.getD i 0 = 1) := by
    rw [Finset.mem_filter]
    exact ⟨Finset.mem_range.mpr hj, h1⟩
  have := Finset.card_pos.mpr ⟨j, hmem⟩
  unfold onesCard at h
  omega

/-! ### The repair loop always restores feasibility -/

lemma repairGo_len (w : List ℕ) (cap : ℕ) (tape : RandTape) :
    ∀ (fuel : ℕ) (nb : Solution) (wt ctr : ℕ),
      (repairGo w cap tape fuel nb wt ctr).1.length = nb.length := by
  intro fuel
  induction fuel with
  | zero => intro nb wt ctr; rfl
  | succ fuel ih =>
    intro nb wt ctr
    rw [repairGo]
    by_cases hle : wt ≤ cap
    · simp [hle]
    · simp only [hle, if_false]
      by_cases hone : indicesOne nb = []
      · simp [hone]
      · simp only [hone, if_false]
        rw [ih]
        exact List.length_set ..

lemma repairGo_spec (w : List ℕ) (cap : ℕ) (tape : RandTape) :
    ∀ (fuel : ℕ) (nb : Solution) (wt ctr : ℕ),
      wt = solWeight w nb → IsBinary nb → onesCard nb ≤ fuel →
      solWeight w (repairGo w cap tape fuel nb wt ctr).1 ≤ cap ∧
      IsBinary (repairGo w cap tape fuel nb wt ctr).1 := by
  intro fuel
  induction fuel with
  | zero =>
    intro nb wt ctr hwt hb hcard
    have h0 : onesCard nb = 0 := Nat.le_zero.mp hcard
    have hz : solWeight w nb = 0 :=
      solWeight_eq_zero_of_no_ones hb (onesCard_zero_no_ones h0)
    exact ⟨by rw [repairGo]; simp [hz], hb⟩
  | succ fuel ih =>
    intro nb wt ctr hwt hb hcard
    by_cases hle : wt ≤ cap
    · have hstep : repairGo w cap tape (fuel + 1) nb wt ctr = (nb, wt, ctr) := by
        rw [repairGo, if_pos hle]
      rw [hstep]
      dsimp only
      exact ⟨by omega, hb⟩
    · by_cases hone : indicesOne nb = []
      · have hz : solWeight w nb = 0 :=
          solWeight_eq_zero_of_no_ones hb (indicesOne_nil_no_ones hone)
        have hstep : repairGo w cap tape (fuel + 1) nb wt ctr = (nb, wt, ctr) := by
          rw [repairGo, if_neg hle]
          simp [hone]
        rw [hstep]
        dsimp only
        exact ⟨by rw [hz]; exact Nat.zero_le cap, hb⟩
      · set i := (indicesOne nb).getD (tape.ints ctr % (indicesOne nb).length) 0 with hidef
        have hstep : repairGo w cap tape (fuel + 1) nb wt ctr
            = repairGo w cap tape fuel (nb.set i 0) (wt - w.getD i 0) (ctr + 1) := by
          rw [repairGo, if_neg hle]
          simp only [hone, if_false]
        rw [hstep]
        have hlen0 : 0 < (indicesOne nb).length := List.length_pos.mpr hone
        have hmem : i ∈ indicesOne nb := by
          rw [hidef, List.getD_eq_getElem _ _ (Nat.mod_lt _ hlen0)]
          exact List.getElem_mem _
        obtain ⟨hilt, hione⟩ := mem_indicesOne.mp hmem
        have hset := solWeight_set (w := w) hilt 0
        rw [hione] at hset
        apply ih
        · omega
        · exact isBinary_set hb (by omega) i
        · have := onesCard_set_lt hilt hione
          omega

/-! ### Neighbor generation: counts, lengths, feasibility -/

lemma generate_one_neighbor_len {w : List ℕ} {cap : ℕ} {tape : RandTape}
    {sol nb : Solution} {ctr ctr1 : ℕ}
    (h : generate_one_neighbor w cap tape sol ctr = some (nb, ctr1)) :
    nb.length = sol.length := by
  unfold generate_one_neighbor at h
  cases hr : randint 0 ((sol.length : ℤ) - 1) (tape.ints ctr) with
  | none => rw [hr] at h; cases h
  | some iz =>
    rw [hr] at h
    simp only [Option.some.injEq, Prod.mk.injEq] at h
    rw [← h.1, repairGo_len, List.length_set]

lemma generate_one_neighbor_sound {w : List ℕ} {cap : ℕ} {tape : RandTape}
    {sol nb : Solution} {ctr ctr1 : ℕ}
    (h : generate_one_neighbor w cap tape sol ctr = some (nb, ctr1))
    (hb : IsBinary sol) :
    IsBinary nb ∧ solWeight w nb ≤ cap := by
  unfold generate_one_neighbor at h
  cases hr : randint 0 ((sol.length : ℤ) - 1) (tape.ints ctr) with
  | none => rw [hr] at h; cases h
  | some iz =>
    rw [hr] at h
    simp only [Option.some.injEq, Prod.mk.injEq] at h
    set i := iz.toNat
    set nb0 := sol.set i (1 - sol.getD i 0) with hnb0
    have hb0 : IsBinary nb0 := isBinary_set hb (by omega) i
    have hcard : onesCard nb0 ≤ nb0.length := onesCard_le_length nb0
    have hspec := repairGo_spec w cap tape nb0.length nb0 (solWeight w nb0) (ctr + 1)
      rfl hb0 hcard
    rw [← h.1]
    exact ⟨hspec.2, hspec.1⟩

lemma generate_one_neighbor_total {w : List ℕ} {cap : ℕ} {tape : RandTape}
    {sol : Solution} (h1 : 1 ≤ sol.length) (ctr : ℕ) :
    ∃ nb ctr1, generate_one_neighbor w cap tape sol ctr = some (nb, ctr1) := by
  unfold generate_one_neighbor
  have hnn : ¬ ((sol.length : ℤ) - 1 < 0) := by
    have : (1 : ℤ) ≤ (sol.length : ℤ) := by exact_mod_cast h1
    omega
  rw [randint, if_neg hnn]
  exact ⟨_, _, rfl⟩

lemma generate_neighbors_go_sound {w : List ℕ} {cap : ℕ} {tape : RandTape}
    {sol : Solution} :
    ∀ (k ctr : ℕ) {nbs : List Solution} {ctr2 : ℕ},
      generate_neighbors_go w cap tape sol k ctr = some (nbs, ctr2) →
      nbs.length = k ∧ (∀ nb ∈ nbs, nb.length = sol.length) ∧
      (IsBinary sol → ∀ nb ∈ nbs, IsBinary nb ∧ solWeight w nb ≤ cap) := by
  intro k
  induction k with
  | zero =>
    intro ctr nbs ctr2 h
    rw [generate_neighbors_go] at h
    simp only [Option.some.injEq, Prod.mk.injEq] at h
    rw [← h.1]
    exact ⟨rfl, by simp, fun _ => by simp⟩
  | succ k ih =>
    intro ctr nbs ctr2 h
    rw [generate_neighbors_go] at h
    cases h1 : generate_one_neighbor w cap tape sol ctr with
    | none => rw [h1] at h; cases h
    | some nb1 =>
      rw [h1] at h
      dsimp only at h
      cases h2 : generate_neighbors_go w cap tape sol k nb1.2 with
      | none => rw [h2] at h; cases h
      | some nbs2 =>
        rw [h2] at h
        simp only [Option.some.injEq, Prod.mk.injEq] at h
        obtain ⟨hlen, hall, hfeas⟩ := ih nb1.2 h2
        have h1s : generate_one_neighbor w cap tape sol ctr = some (nb1.1, nb1.2) := by
          rw [h1]
        refine ⟨?_, ?_, ?_⟩
        · rw [← h.1]
          simp [hlen]
        · intro nb hnb
          rw [← h.1] at hnb
          rcases List.mem_cons.mp hnb with rfl | hnb2
          · exact generate_one_neighbor_len h1s
          · exact hall nb hnb2
        · intro hb nb hnb
          rw [← h.1] at hnb
          rcases List.mem_cons.mp hnb with rfl | hnb2
          · exact generate_one_neighbor_sound h1s hb
          · exact hfeas hb nb hnb2

lemma generate_neighbors_go_total {w : List ℕ} {cap : ℕ} {tape : RandTape}
    {sol : Solution} (h1 : 1 ≤ sol.length) :
    ∀ (k ctr : ℕ), ∃ nbs ctr2,
      generate_neighbors_go w cap tape sol k ctr = some (nbs, ctr2) := by
  intro k
  induction k with
  | zero => intro ctr; exact ⟨[], ctr, rfl⟩
  | succ k ih =>
    intro ctr
    have hone1 : ∃ nb ctr1, generate_one_neighbor w cap tape sol ctr = some (nb, ctr1) :=
      generate_one_neighbor_total h1 ctr
    obtain ⟨nb, ctr1, hone⟩ := hone1
    obtain ⟨nbs, ctr2, hgo⟩ := ih ctr1
    refine ⟨nb :: nbs, ctr2, ?_⟩
    rw [generate_neighbors_go, hone]
    dsimp only
    rw [hgo]

lemma generate_neighbors_sound {w : List ℕ} {cap k : ℕ} {tape : RandTape}
    {sol : Solution} {ctr : ℕ} {nbs : List Solution} {ctr2 : ℕ}
    (h : generate_neighbors w cap k tape sol ctr = some (nbs, ctr2)) :
    nbs.length = k ∧ (∀ nb ∈ nbs, nb.length = sol.length) ∧
    (IsBinary sol → ∀ nb ∈ nbs, IsBinary nb ∧ solWeight w nb ≤ cap) :=
  generate_neighbors_go_sound k ctr h

lemma generate_neighbors_total {w : List ℕ} {cap k : ℕ} {tape : RandTape}
    {sol : Solution} (h1 : 1 ≤ sol.length) (ctr : ℕ) :
    ∃ nbs ctr2, generate_neighbors w cap k tape sol ctr = some (nbs, ctr2) :=
  generate_neighbors_go_total h1 k ctr

/-! ### The greedy initial solution is binary and feasible -/

lemma greedy_fold_inv (w : List ℕ) (cap : ℕ) :
    ∀ (items : List ℕ) (p : Solution × ℕ),
      IsBinary p.1 → solWeight w p.1 ≤ p.2 → p.2 ≤ cap →
      IsBinary (items.foldl (fun acc i =>
          if acc.2 + w.getD i 0 ≤ cap then (acc.1.set i 1, acc.2 + w.getD i 0) else acc) p).1 ∧
      solWeight w (items.foldl (fun acc i =>
          if acc.2 + w.getD i 0 ≤ cap then (acc.1.set i 1, acc.2 + w.getD i 0) else acc) p).1
        ≤ cap ∧
      (items.foldl (fun acc i =>
          if acc.2 + w.getD i 0 ≤ cap then (acc.1.set i 1, acc.2 + w.getD i 0) else acc) p).1.length
        = p.1.length := by
  intro items
  induction items with
  | nil =>
    intro p hb hsw hle
    exact ⟨hb, le_trans hsw hle, rfl⟩
  | cons i rest ih =>
    intro p hb hsw hle
    rw [List.foldl_cons]
    by_cases hfit : p.2 + w.getD i 0 ≤ cap
    · rw [if_pos hfit]
      have hr := ih (p.1.set i 1, p.2 + w.getD i 0)
        (isBinary_set hb (le_refl 1) i)
        (by
          dsimp only
          calc solWeight w (p.1.set i 1) ≤ solWeight w p.1 + w.getD i 0 :=
                solWeight_set_one_le i
            _ ≤ p.2 + w.getD i 0 := by omega)
        hfit
      refine ⟨hr.1, hr.2.1, ?_⟩
      rw [hr.2.2]
      exact List.length_set ..
    · rw [if_neg hfit]
      exact ih p hb hsw hle

lemma generate_initial_solution_spec {cap : ℕ} {profit w : List ℕ} {sol : Solution}
    (h : generate_initial_solution cap profit w = some sol) :
    IsBinary sol ∧ solWeight w sol ≤ cap ∧ sol.length = profit.length := by
  unfold generate_initial_solution at h
  dsimp only at h
  cases hany : (List.range profit.length).any (fun i => w.getD i 0 == 0) with
  | true => rw [hany] at h; cases h
  | false =>
    rw [hany] at h
    simp only [Bool.false_eq_true, if_false, Option.some.injEq] at h
    have hinv := greedy_fold_inv w cap
      ((List.range profit.length).mergeSort
        (fun i j => decide (ratio profit w j ≤ ratio profit w i)))
      (List.replicate profit.length 0, 0)
      (isBinary_replicate _)
      (by dsimp only; rw [solWeight_replicate_zero])
      (Nat.zero_le cap)
    rw [← h]
    unfold greedyFold
    refine ⟨hinv.1, hinv.2.1, ?_⟩
    rw [hinv.2.2]
    exact List.length_replicate ..

lemma generate_initial_solution_total {cap : ℕ} {profit w : List ℕ}
    (hnz : ∀ i ∈ List.range profit.length, w.getD i 0 ≠ 0) :
    ∃ sol, generate_initial_solution cap profit w = some sol := by
  unfold generate_initial_solution
  dsimp only
  have hany : (List.range profit.length).any (fun i => w.getD i 0 == 0) = false := by
    rw [List.any_eq_false]
    intro i hi
    simpa using hnz i hi
  rw [hany]
  simp only [Bool.false_eq_true, if_false]
  exact ⟨_, rfl⟩

/-! ### Invariants of the search state -/

lemma accept_neighbor_inv {profit w : List ℕ} {cap : ℕ} {tape : RandTape}
    {st : SAState} {nb : Solution}
    (hinv : Inv profit w cap st) (hb : IsBinary nb) (hf : solWeight w nb ≤ cap) :
    Inv profit w cap (accept_neighbor profit tape st nb) := by
  obtain ⟨h1, h2, h3, h4, h5, h6⟩ := hinv
  unfold accept_neighbor
  dsimp only
  split
  · split
    · exact ⟨hb, hb, hf, hf, rfl, rfl⟩
    · exact ⟨hb, h2, hf, h4, rfl, h6⟩
  · exact ⟨h1, h2, h3, h4, h5, h6⟩

lemma accept_neighbor_lengths {profit : List ℕ} {tape : RandTape} {st : SAState}
    {nb : Solution} {L : ℕ} (hs : st.solution.length = L)
    (hbs : st.best_solution.length = L) (hnb : nb.length = L) :
    (accept_neighbor profit tape st nb).solution.length = L ∧
    (accept_neighbor profit tape st nb).best_solution.length = L := by
  unfold accept_neighbor
  dsimp only
  split
  · split
    · exact ⟨hnb, hnb⟩
    · exact ⟨hnb, hbs⟩
  · exact ⟨hs, hbs⟩

lemma accept_neighbor_temperature (profit : List ℕ) (tape : RandTape)
    (st : SAState) (nb : Solution) :
    (accept_neighbor profit tape st nb).temperature = st.temperature := by
  unfold accept_neighbor
  dsimp only
  split
  · split <;> rfl
  · rfl

lemma foldl_accept_temperature (profit : List ℕ) (tape : RandTape) :
    ∀ (nbs : List Solution) (st : SAState),
      (nbs.foldl (accept_neighbor profit tape) st).temperature = st.temperature := by
  intro nbs
  induction nbs with
  | nil => intro st; rfl
  | cons nb rest ih =>
    intro st
    rw [List.foldl_cons, ih, accept_neighbor_temperature]

lemma foldl_accept_inv {profit w : List ℕ} {cap : ℕ} {tape : RandTape} :
    ∀ (nbs : List Solution) (st : SAState),
      Inv profit w cap st →
      (∀ nb ∈ nbs, IsBinary nb ∧ solWeight w nb ≤ cap) →
      Inv profit w cap (nbs.foldl (accept_neighbor profit tape) st) := by
  intro nbs
  induction nbs with
  | nil => intro st hinv _; exact hinv
  | cons nb rest ih =>
    intro st hinv hall
    rw [List.foldl_cons]
    have hnb := hall nb (List.mem_cons_self ..)
    exact ih _ (accept_neighbor_inv hinv hnb.1 hnb.2)
      (fun x hx => hall x (List.mem_cons_of_mem _ hx))

lemma foldl_accept_lengths {profit : List ℕ} {tape : RandTape} {L : ℕ} :
    ∀ (nbs : List Solution) (st : SAState),
      st.solution.length = L → st.best_solution.length = L →
      (∀ nb ∈ nbs, nb.length = L) →
      (nbs.foldl (accept_neighbor profit tape) st).solution.length = L ∧
      (nbs.foldl (accept_neighbor profit tape) st).best_solution.length = L := by
  intro nbs
  induction nbs with
  | nil => intro st hs hbs _; exact ⟨hs, hbs⟩
  | cons nb rest ih =>
    intro st hs hbs hall
    rw [List.foldl_cons]
    have hlen : (accept_neighbor profit tape st nb).solution.length = L ∧
        (accept_neighbor profit tape st nb).best_solution.length = L :=
      accept_neighbor_lengths hs hbs (hall nb (List.mem_cons_self ..))
    exact ih _ hlen.1 hlen.2 (fun x hx => hall x (List.mem_cons_of_mem _ hx))

/-! ### Inner loop: invariant, lengths, temperature evolution -/

lemma inner_body_inv {profit w : List ℕ} {cap k : ℕ} {tape : RandTape}
    {st st1 : SAState} (h : inner_body profit w cap k tape st = some st1)
    (hinv : Inv profit w cap st) :
    Inv profit w cap st1 := by
  unfold inner_body at h
  cases hgen : generate_neighbors w cap k tape st.solution st.ctr with
  | none => rw [hgen] at h; cases h
  | some nbs1 =>
    rw [hgen] at h
    simp only [Option.some.injEq] at h
    rw [← h]
    have hsound := generate_neighbors_sound (show generate_neighbors w cap k tape
      st.solution st.ctr = some (nbs1.1, nbs1.2) by rw [hgen])
    exact foldl_accept_inv nbs1.1 _ hinv (hsound.2.2 hinv.1)

lemma inner_body_lengths {profit w : List ℕ} {cap k : ℕ} {tape : RandTape}
    {st st1 : SAState} {L : ℕ} (h : inner_body profit w cap k tape st = some st1)
    (hs : st.solution.length = L) (hbs : st.best_solution.length = L) :
    st1.solution.length = L ∧ st1.best_solution.length = L := by
  unfold inner_body at h
  cases hgen : generate_neighbors w cap k tape st.solution st.ctr with
  | none => rw [hgen] at h; cases h
  | some nbs1 =>
    rw [hgen] at h
    simp only [Option.some.injEq] at h
    rw [← h]
    have hsound := generate_neighbors_sound (show generate_neighbors w cap k tape
      st.solution st.ctr = some (nbs1.1, nbs1.2) by rw [hgen])
    exact foldl_accept_lengths nbs1.1 _ hs hbs
      (fun nb hnb => by rw [hsound.2.1 nb hnb, hs])

lemma inner_body_temperature {profit w : List ℕ} {cap k : ℕ} {tape : RandTape}
    {st st1 : SAState} (h : inner_body profit w cap k tape st = some st1) :
    st1.temperature = st.temperature := by
  unfold inner_body at h
  cases hgen : generate_neighbors w cap k tape st.solution st.ctr with
  | none => rw [hgen] at h; cases h
  | some nbs1 =>
    rw [hgen] at h
    simp only [Option.some.injEq] at h
    rw [← h, foldl_accept_temperature]

lemma inner_body_total {profit w : List ℕ} {cap k : ℕ} {tape : RandTape}
    {st : SAState} (h1 : 1 ≤ st.solution.length) :
    ∃ st1, inner_body profit w cap k tape st = some st1 := by
  have hgen1 : ∃ nbs ctr2, generate_neighbors w cap k tape st.solution st.ctr
      = some (nbs, ctr2) := generate_neighbors_total h1 st.ctr
  obtain ⟨nbs, ctr2, hgen⟩ := hgen1
  refine ⟨nbs.foldl (accept_neighbor profit tape) { st with ctr := ctr2 }, ?_⟩
  unfold inner_body
  rw [hgen]

lemma inner_iter_inv {cfg : Config} {profit w : List ℕ} {cap k : ℕ} {tape : RandTape}
    {st st1 : SAState} (h : inner_iter cfg profit w cap k tape st = some st1)
    (hinv : Inv profit w cap st) : Inv profit w cap st1 := by
  unfold inner_iter at h
  cases hb : inner_body profit w cap k tape st with
  | none => rw [hb] at h; cases h
  | some st2 =>
    rw [hb] at h
    simp only [Option.some.injEq] at h
    rw [← h]
    have h2 := inner_body_inv hb hinv
    exact h2

lemma inner_iter_lengths {cfg : Config} {profit w : List ℕ} {cap k : ℕ}
    {tape : RandTape} {st st1 : SAState} {L : ℕ}
    (h : inner_iter cfg profit w cap k tape st = some st1)
    (hs : st.solution.length = L) (hbs : st.best_solution.length = L) :
    st1.solution.length = L ∧ st1.best_solution.length = L := by
  unfold inner_iter at h
  cases hb : inner_body profit w cap k tape st with
  | none => rw [hb] at h; cases h
  | some st2 =>
    rw [hb] at h
    simp only [Option.some.injEq] at h
    rw [← h]
    have h2 := inner_body_lengths hb hs hbs
    exact h2

lemma inner_iter_temperature {cfg : Config} {profit w : List ℕ} {cap k : ℕ}
    {tape : RandTape} {st st1 : SAState}
    (h : inner_iter cfg profit w cap k tape st = some st1) :
    st1.temperature = cooling cfg.cooling_rate st.temperature := by
  unfold inner_iter at h
  cases hb : inner_body profit w cap k tape st with
  | none => rw [hb] at h; cases h
  | some st2 =>
    rw [hb] at h
    simp only [Option.some.injEq] at h
    rw [← h]
    show cooling cfg.cooling_rate st2.temperature = cooling cfg.cooling_rate st.temperature
    rw [inner_body_temperature hb]

lemma inner_iter_total {cfg : Config} {profit w : List ℕ} {cap k : ℕ}
    {tape : RandTape} {st : SAState} (h1 : 1 ≤ st.solution.length) :
    ∃ st1, inner_iter cfg profit w cap k tape st = some st1 := by
  have hb1 : ∃ st2, inner_body profit w cap k tape st = some st2 :=
    inner_body_total h1
  obtain ⟨st2, hb⟩ := hb1
  refine ⟨{ st2 with temperature := cooling cfg.cooling_rate st2.temperature }, ?_⟩
  unfold inner_iter
  rw [hb]

lemma inner_loop_inv {cfg : Config} {profit w : List ℕ} {cap k : ℕ}
    {tape : RandTape} :
    ∀ {m : ℕ} {st st1 : SAState},
      inner_loop cfg profit w cap k tape m st = some st1 →
      Inv profit w cap st → Inv profit w cap st1 := by
  intro m
  induction m with
  | zero =>
    intro st st1 h hinv
    rw [inner_loop] at h
    simp only [Option.some.injEq] at h
    rw [← h]
    exact hinv
  | succ m ih =>
    intro st st1 h hinv
    rw [inner_loop] at h
    cases hit : inner_iter cfg profit w cap k tape st with
    | none => rw [hit] at h; cases h
    | some st2 =>
      rw [hit] at h
      exact ih h (inner_iter_inv hit hinv)

lemma inner_loop_lengths {cfg : Config} {profit w : List ℕ} {cap k : ℕ}
    {tape : RandTape} {L : ℕ} :
    ∀ {m : ℕ} {st st1 : SAState},
      inner_loop cfg profit w cap k tape m st = some st1 →
      st.solution.length = L → st.best_solution.length = L →
      st1.solution.length = L ∧ st1.best_solution.length = L := by
  intro m
  induction m with
  | zero =>
    intro st st1 h hs hbs
    rw [inner_loop] at h
    simp only [Option.some.injEq] at h
    rw [← h]
    exact ⟨hs, hbs⟩
  | succ m ih =>
    intro st st1 h hs hbs
    rw [inner_loop] at h
    cases hit : inner_iter cfg profit w cap k tape st with
    | none => rw [hit] at h; cases h
    | some st2 =>
      rw [hit] at h
      have hlen := inner_iter_lengths hit hs hbs
      exact ih h hlen.1 hlen.2

lemma inner_loop_temperature {cfg : Config} {profit w : List ℕ} {cap k : ℕ}
    {tape : RandTape} :
    ∀ {m : ℕ} {st st1 : SAState},
      inner_loop cfg profit w cap k tape m st = some st1 →
      st1.temperature = (cooling cfg.cooling_rate)^[m] st.temperature := by
  intro m
  induction m with
  | zero =>
    intro st st1 h
    rw [inner_loop] at h
    simp only [Option.some.injEq] at h
    rw [← h]
    rfl
  | succ m ih =>
    intro st st1 h
    rw [inner_loop] at h
    cases hit : inner_iter cfg profit w cap k tape st with
    | none => rw [hit] at h; cases h
    | some st2 =>
      rw [hit] at h
      rw [ih h, inner_iter_temperature hit, Function.iterate_succ_apply]

lemma inner_loop_total {cfg : Config} {profit w : List ℕ} {cap k : ℕ}
    {tape : RandTape} {L : ℕ} (hL : 1 ≤ L) :
    ∀ (m : ℕ) (st : SAState), st.solution.length = L → st.best_solution.length = L →
      ∃ st1, inner_loop cfg profit w cap k tape m st = some st1 := by
  intro m
  induction m with
  | zero => intro st _ _; exact ⟨st, rfl⟩
  | succ m ih =>
    intro st hs hbs
    have h1 : 1 ≤ st.solution.length := by omega
    have hit1 : ∃ st2, inner_iter cfg profit w cap k tape st = some st2 :=
      inner_iter_total h1
    obtain ⟨st2, hit⟩ := hit1
    have hlen := inner_iter_lengths hit hs hbs
    obtain ⟨st1, hrest⟩ := ih st2 hlen.1 hlen.2
    refine ⟨st1, ?_⟩
    rw [inner_loop, hit]
    dsimp only
    rw [hrest]

/-! ### Cooling schedule: positivity and decrease -/

lemma one_le_cooling_denom {cr : ℝ} (T : ℝ) (hcr : 0 ≤ cr) :
    1 ≤ 1 + cr * Real.sqrt T := by
  have := mul_nonneg hcr (Real.sqrt_nonneg T)
  linarith

lemma cooling_nonneg {cr T : ℝ} (hcr : 0 ≤ cr) (hT : 0 ≤ T) : 0 ≤ cooling cr T :=
  div_nonneg hT (le_trans zero_le_one (one_le_cooling_denom T hcr))

lemma cooling_pos {cr T : ℝ} (hcr : 0 ≤ cr) (hT : 0 < T) : 0 < cooling cr T :=
  div_pos hT (lt_of_lt_of_le zero_lt_one (one_le_cooling_denom T hcr))

lemma cooling_le_self {cr T : ℝ} (hcr : 0 ≤ cr) (hT : 0 ≤ T) : cooling cr T ≤ T :=
  div_le_self hT (one_le_cooling_denom T hcr)

lemma cooling_lt_self {cr T : ℝ} (hcr : 0 < cr) (hT : 0 < T) : cooling cr T < T := by
  apply div_lt_self hT
  have hs := mul_pos hcr (Real.sqrt_pos.mpr hT)
  linarith

lemma cooling_le_shrink {cr Tmin T : ℝ} (hcr : 0 ≤ cr) (hT : Tmin ≤ T) (hT0 : 0 ≤ T) :
    cooling cr T ≤ T / (1 + cr * Real.sqrt Tmin) := by
  unfold cooling
  apply div_le_div_of_nonneg_left hT0
  · exact lt_of_lt_of_le zero_lt_one (one_le_cooling_denom Tmin hcr)
  · have := mul_le_mul_of_nonneg_left (Real.sqrt_le_sqrt hT) hcr
    linarith

lemma cooling_iterate_nonneg {cr : ℝ} (hcr : 0 ≤ cr) :
    ∀ (m : ℕ) {T : ℝ}, 0 ≤ T → 0 ≤ (cooling cr)^[m] T := by
  intro m
  induction m with
  | zero => intro T hT; simpa using hT
  | succ m ih =>
    intro T hT
    rw [Function.iterate_succ_apply]
    exact ih (cooling_nonneg hcr hT)

lemma cooling_iterate_pos {cr : ℝ} (hcr : 0 ≤ cr) :
    ∀ (m : ℕ) {T : ℝ}, 0 < T → 0 < (cooling cr)^[m] T := by
  intro m
  induction m with
  | zero => intro T hT; simpa using hT
  | succ m ih =>
    intro T hT
    rw [Function.iterate_succ_apply]
    exact ih (cooling_pos hcr hT)

lemma cooling_iterate_le_self {cr : ℝ} (hcr : 0 ≤ cr) :
    ∀ (m : ℕ) {T : ℝ}, 0 ≤ T → (cooling cr)^[m] T ≤ T := by
  intro m
  induction m with
  | zero => intro T hT; simp
  | succ m ih =>
    intro T hT
    rw [Function.iterate_succ_apply]
    exact le_trans (ih (cooling_nonneg hcr hT)) (cooling_le_self hcr hT)

lemma cooling_iterate_shrink {cr Tmin : ℝ} (hcr : 0 ≤ cr)
    {m : ℕ} (hm : 1 ≤ m) {T : ℝ} (hT : Tmin ≤ T) (hT0 : 0 ≤ T) :
    (cooling cr)^[m] T ≤ T / (1 + cr * Real.sqrt Tmin) := by
  obtain ⟨m1, rfl⟩ : ∃ m1, m = m1 + 1 := ⟨m - 1, by omega⟩
  rw [Function.iterate_succ_apply]
  exact le_trans (cooling_iterate_le_self hcr m1 (cooling_nonneg hcr hT0))
    (cooling_le_shrink hcr hT hT0)

/-! ### Outer pass and outer loop -/

lemma outer_pass_inv {cfg : Config} {profit w : List ℕ} {cap k : ℕ}
    {tape : RandTape} {st st1 : SAState}
    (h : outer_pass cfg profit w cap k tape st = some st1)
    (hinv : Inv profit w cap st) : Inv profit w cap st1 := by
  unfold outer_pass at h
  apply inner_loop_inv h
  obtain ⟨h1, h2, h3, h4, h5, h6⟩ := hinv
  exact ⟨h2, h2, h4, h4, h6, h6⟩

lemma outer_pass_lengths {cfg : Config} {profit w : List ℕ} {cap k : ℕ}
    {tape : RandTape} {st st1 : SAState} {L : ℕ}
    (h : outer_pass cfg profit w cap k tape st = some st1)
    (hbs : st.best_solution.length = L) :
    st1.solution.length = L ∧ st1.best_solution.length = L := by
  unfold outer_pass at h
  exact inner_loop_lengths h hbs hbs

lemma outer_pass_temperature {cfg : Config} {profit w : List ℕ} {cap k : ℕ}
    {tape : RandTape} {st st1 : SAState}
    (h : outer_pass cfg profit w cap k tape st = some st1) :
    st1.temperature = (cooling cfg.cooling_rate)^[cfg.iter_max] st.temperature := by
  unfold outer_pass at h
  have h2 := inner_loop_temperature h
  exact h2

lemma outer_pass_total {cfg : Config} {profit w : List ℕ} {cap k : ℕ}
    {tape : RandTape} {st : SAState} {L : ℕ} (hL : 1 ≤ L)
    (hbs : st.best_solution.length = L) :
    ∃ st1, outer_pass cfg profit w cap k tape st = some st1 := by
  unfold outer_pass
  exact inner_loop_total hL cfg.iter_max _ hbs hbs

lemma run_loop_some_spec {cfg : Config} {profit w : List ℕ} {cap k : ℕ}
    {tape : RandTape} :
    ∀ {fuel : ℕ} {st : SAState} {res : Solution × ℕ},
      run_loop cfg profit w cap k tape fuel st = some res →
      Inv profit w cap st →
      solWeight w res.1 ≤ cap ∧ res.2 = calculate_cost profit res.1 ∧ IsBinary res.1 := by
  intro fuel
  induction fuel with
  | zero =>
    intro st res h _
    rw [run_loop] at h
    cases h
  | succ fuel ih =>
    intro st res h hinv
    rw [run_loop] at h
    by_cases hcond : st.temperature > cfg.T_min ∧
        st.no_improve_count < cfg.no_improve_limit
    · rw [if_pos hcond] at h
      cases hop : outer_pass cfg profit w cap k tape st with
      | none => rw [hop] at h; cases h
      | some st1 =>
        rw [hop] at h
        exact ih h (outer_pass_inv hop hinv)
    · rw [if_neg hcond] at h
      simp only [Option.some.injEq] at h
      rw [← h]
      exact ⟨hinv.2.2.2.1, hinv.2.2.2.2.2, hinv.2.1⟩

/-! ### Termination of the outer loop -/

lemma run_loop_exit_eq {cfg : Config} {profit w : List ℕ} {cap k : ℕ}
    {tape : RandTape} {st : SAState}
    (hcond : ¬ (st.temperature > cfg.T_min ∧
      st.no_improve_count < cfg.no_improve_limit)) (g : ℕ) :
    run_loop cfg profit w cap k tape (g + 1) st
      = some (st.best_solution, st.best_cost) := by
  rw [run_loop, if_neg hcond]

lemma run_loop_step_eq {cfg : Config} {profit w : List ℕ} {cap k : ℕ}
    {tape : RandTape} {st st1 : SAState}
    (hcond : st.temperature > cfg.T_min ∧
      st.no_improve_count < cfg.no_improve_limit)
    (hop : outer_pass cfg profit w cap k tape st = some st1) (g : ℕ) :
    run_loop cfg profit w cap k tape (g + 1) st
      = run_loop cfg profit w cap k tape g st1 := by
  rw [run_loop, if_pos hcond, hop]

lemma run_loop_fail_eq {cfg : Config} {profit w : List ℕ} {cap k : ℕ}
    {tape : RandTape} {st : SAState}
    (hcond : st.temperature > cfg.T_min ∧
      st.no_improve_count < cfg.no_improve_limit)
    (hop : outer_pass cfg profit w cap k tape st = none) (g : ℕ) :
    run_loop cfg profit w cap k tape (g + 1) st = none := by
  rw [run_loop, if_pos hcond, hop]

lemma run_loop_stabilizes {cfg : Config} {profit w : List ℕ} {cap k : ℕ}
    {tape : RandTape} (hcr : 0 < cfg.cooling_rate) (hTmin : 0 < cfg.T_min)
    (hiter : 1 ≤ cfg.iter_max) :
    ∀ (M : ℕ) (st : SAState),
      st.temperature
        ≤ cfg.T_min * (1 + cfg.cooling_rate * Real.sqrt cfg.T_min) ^ M →
      (∀ f, M + 1 ≤ f →
        run_loop cfg profit w cap k tape f st
          = run_loop cfg profit w cap k tape (M + 1) st) ∧
      (∀ L, 1 ≤ L → st.best_solution.length = L →
        (run_loop cfg profit w cap k tape (M + 1) st).isSome) := by
  intro M
  induction M with
  | zero =>
    intro st hT
    rw [pow_zero, mul_one] at hT
    have hcond : ¬ (st.temperature > cfg.T_min ∧
        st.no_improve_count < cfg.no_improve_limit) := by
      intro hc
      exact absurd hc.1 (not_lt.mpr hT)
    constructor
    · intro f hf
      obtain ⟨f1, rfl⟩ : ∃ f1, f = f1 + 1 := ⟨f - 1, by omega⟩
      rw [run_loop_exit_eq hcond f1]
      exact (run_loop_exit_eq hcond 0).symm
    · intro L hL hbs
      rw [run_loop_exit_eq hcond 0]
      rfl
  | succ M ih =>
    intro st hT
    by_cases hcond : st.temperature > cfg.T_min ∧
        st.no_improve_count < cfg.no_improve_limit
    · cases hop : outer_pass cfg profit w cap k tape st with
      | none =>
        constructor
        · intro f hf
          obtain ⟨f1, rfl⟩ : ∃ f1, f = f1 + 1 := ⟨f - 1, by omega⟩
          rw [run_loop_fail_eq hcond hop f1]
          exact (run_loop_fail_eq hcond hop (M + 1)).symm
        · intro L hL hbs
          have hop1 : ∃ st1, outer_pass cfg profit w cap k tape st = some st1 :=
            outer_pass_total hL hbs
          obtain ⟨st1, hop2⟩ := hop1
          rw [hop] at hop2
          cases hop2
      | some st1 =>
        have hpos : (0 : ℝ) < st.temperature := lt_trans hTmin hcond.1
        have hT1 : st1.temperature
            ≤ cfg.T_min * (1 + cfg.cooling_rate * Real.sqrt cfg.T_min) ^ M := by
          have hr1 : (1 : ℝ) < 1 + cfg.cooling_rate * Real.sqrt cfg.T_min := by
            have := mul_pos hcr (Real.sqrt_pos.mpr hTmin)
            linarith
          have hr0 : (0 : ℝ) < 1 + cfg.cooling_rate * Real.sqrt cfg.T_min :=
            lt_trans zero_lt_one hr1
          have hshrink : st1.temperature
              ≤ st.temperature / (1 + cfg.cooling_rate * Real.sqrt cfg.T_min) := by
            rw [outer_pass_temperature hop]
            exact cooling_iterate_shrink hcr.le hiter (le_of_lt hcond.1) hpos.le
          have hdiv : st.temperature / (1 + cfg.cooling_rate * Real.sqrt cfg.T_min)
              ≤ cfg.T_min * (1 + cfg.cooling_rate * Real.sqrt cfg.T_min) ^ M := by
            rw [div_le_iff₀ hr0, pow_succ] at *
            calc st.temperature
                ≤ cfg.T_min * ((1 + cfg.cooling_rate * Real.sqrt cfg.T_min) ^ M
                  * (1 + cfg.cooling_rate * Real.sqrt cfg.T_min)) := hT
              _ = cfg.T_min * (1 + cfg.cooling_rate * Real.sqrt cfg.T_min) ^ M
                  * (1 + cfg.cooling_rate * Real.sqrt cfg.T_min) := by ring
          exact le_trans hshrink hdiv
        obtain ⟨ihEq, ihSome⟩ := ih st1 hT1
        constructor
        · intro f hf
          obtain ⟨f1, rfl⟩ : ∃ f1, f = f1 + 1 := ⟨f - 1, by omega⟩
          calc run_loop cfg profit w cap k tape (f1 + 1) st
              = run_loop cfg profit w cap k tape f1 st1 :=
                run_loop_step_eq hcond hop f1
            _ = run_loop cfg profit w cap k tape (M + 1) st1 :=
                ihEq f1 (by omega)
            _ = run_loop cfg profit w cap k tape (M + 1 + 1) st :=
                (run_loop_step_eq hcond hop (M + 1)).symm
        · intro L hL hbs
          have hlen := outer_pass_lengths hop hbs
          rw [run_loop_step_eq hcond hop (M + 1)]
          exact ihSome L hL hlen.2
    · constructor
      · intro f hf
        obtain ⟨f1, rfl⟩ : ∃ f1, f = f1 + 1 := ⟨f - 1, by omega⟩
        rw [run_loop_exit_eq hcond f1]
        exact (run_loop_exit_eq hcond (M + 1)).symm
      · intro L hL hbs
        rw [run_loop_exit_eq hcond (M + 1)]
        rfl

/-! ### Top-level run -/

lemma run_some_spec {cfg : Config} {cap : ℕ} {profit w : List ℕ} {tape : RandTape}
    {fuel : ℕ} {res : Solution × ℕ}
    (h : run cfg cap profit w tape fuel = some res) :
    solWeight w res.1 ≤ cap ∧ res.2 = calculate_cost profit res.1 ∧ IsBinary res.1 := by
  unfold run at h
  dsimp only at h
  cases hinit : generate_initial_solution cap profit w with
  | none => rw [hinit] at h; cases h
  | some sol0 =>
    rw [hinit] at h
    dsimp only at h
    cases htemp : initial_temperature profit w cap
        (calculate_number_of_neighbors profit.length) tape sol0 0 with
    | none => rw [htemp] at h; cases h
    | some Tctr =>
      rw [htemp] at h
      dsimp only at h
      obtain ⟨hb, hcap, hlen⟩ := generate_initial_solution_spec hinit
      exact run_loop_some_spec h ⟨hb, hb, hcap, hcap, rfl, rfl⟩

/-! ### Concrete evaluation: a one-item instance with zero profit.
On `capacity = 1`, `profit = [0]`, `weight = [1]` the greedy constructor
selects the item, the single generated neighbor has cost 0, so the initial
temperature is 0 and the outer loop exits immediately. -/

lemma initial_temperature_instA :
    initial_temperature [0] [1] 1 (calculate_number_of_neighbors (List.length [0]))
      tape0 [1] 0 = some (0, 1) := by
  unfold initial_temperature
  rw [show generate_neighbors [1] 1 (calculate_number_of_neighbors (List.length [0]))
      tape0 [1] 0 = some ([[0]], 1) from rfl]
  dsimp only
  norm_num
  decide

lemma generate_initial_solution_instA : generate_initial_solution 1 [0] [1] = some [1] := by
  unfold generate_initial_solution
  dsimp only
  rw [show (List.range (List.length ([0] : List ℕ))).any
    (fun i => List.getD [1] i 0 == 0) = false from rfl]
  simp only [Bool.false_eq_true, if_false]
  rw [show List.range (List.length ([0] : List ℕ)) = [0] from rfl,
    List.mergeSort_singleton]
  rfl

lemma run_instA_eval (cfg : Config) (hTmin : 0 < cfg.T_min) :
    run cfg 1 [0] [1] tape0 1 = some ([1], 0) := by
  unfold run
  dsimp only
  rw [generate_initial_solution_instA]
  dsimp only
  rw [initial_temperature_instA]
  dsimp only
  rw [run_loop]
  rw [if_neg (by
    intro hc
    have h1 : ((0, 1) : ℝ × ℕ).1 > cfg.T_min := hc.1
    dsimp only at h1
    linarith)]
  rfl

/-! ### Concrete evaluation: the empty instance.
With `n = 0` the greedy constructor returns `[]` without touching any ratio,
but `initial_temperature` then calls `generate_neighbors` on the empty
solution, whose first action is `random.randint(0, -1)`: a `ValueError`,
modelled as `none`, so `run` fails rather than returning `([], 0)`. -/

lemma generate_initial_solution_empty (cap : ℕ) :
    generate_initial_solution cap [] [] = some [] := by
  unfold generate_initial_solution
  dsimp only
  rw [show (List.range (List.length ([] : List ℕ))).any
    (fun i => List.getD [] i 0 == 0) = false from rfl]
  simp only [Bool.false_eq_true, if_false]
  rw [show List.range (List.length ([] : List ℕ)) = [] from rfl, List.mergeSort_nil]
  rfl

lemma generate_neighbors_empty (cap : ℕ) (tape : RandTape) (ctr : ℕ) :
    generate_neighbors [] cap
      (calculate_number_of_neighbors (List.length ([] : List ℕ))) tape [] ctr
      = none := rfl

lemma run_empty_instance (cfg : Config) (cap : ℕ) (tape : RandTape) (fuel : ℕ) :
    run cfg cap [] [] tape fuel = none := by
  unfold run
  dsimp only
  rw [generate_initial_solution_empty]
  dsimp only
  rw [show initial_temperature [] [] cap
      (calculate_number_of_neighbors (List.length ([] : List ℕ))) tape [] 0 = none by
    unfold initial_temperature
    rw [generate_neighbors_empty]]

/-! ## Claim theorems -/

/-- C1: for every problem instance (equal-length profit/weight lists) on
which `run` completes, the returned best solution is feasible — its total
weight is at most the capacity.  The initial solution is feasible by greedy
construction, and every later best comes from a neighbor repaired to respect
capacity. -/
theorem claim1_run_best_solution_feasible (cfg : Config) (cap : ℕ)
    (profit w : List ℕ) (tape : RandTape) (fuel : ℕ) (sol : Solution) (c : ℕ)
    (hlen : profit.length = w.length)
    (h : run cfg cap profit w tape fuel = some (sol, c)) :
    solWeight w sol ≤ cap :=
  (run_some_spec h).1

/-- Witness for C1 at the concrete instance `capacity 1, profit [0],
weight [1]` with the default configuration, the all-zeros tape and fuel 1:
the run completes with best solution `[1]`, whose weight 1 fits capacity 1. -/
theorem claim1_witness : solWeight [1] [1] ≤ 1 :=
  claim1_run_best_solution_feasible defaultConfig 1 [0] [1] tape0 1 [1] 0 rfl
    (run_instA_eval defaultConfig (by norm_num [defaultConfig, SA_init]))

/-- C2: for every problem instance on which `run` completes, the returned
best cost equals `calculate_cost` of the returned best solution; the proof
threads this equality as an invariant through every acceptance and
best-update step of the search. -/
theorem claim2_run_best_cost_consistent (cfg : Config) (cap : ℕ)
    (profit w : List ℕ) (tape : RandTape) (fuel : ℕ) (sol : Solution) (c : ℕ)
    (hlen : profit.length = w.length)
    (h : run cfg cap profit w tape fuel = some (sol, c)) :
    c = calculate_cost profit sol :=
  (run_some_spec h).2.1

/-- Witness for C2 at the same concrete instance: the returned cost 0 equals
the cost of the returned solution `[1]`. -/
theorem claim2_witness : (0 : ℕ) = calculate_cost [0] [1] :=
  claim2_run_best_cost_consistent defaultConfig 1 [0] [1] tape0 1 [1] 0 rfl
    (run_instA_eval defaultConfig (by norm_num [defaultConfig, SA_init]))

/-- C3: with coolingRate > 0, minTemperature > 0, maxInnerIterations ≥ 1 and
noImproveLimit ≥ 1, the outer while-loop of `run` performs only finitely many
passes: beyond some finite fuel `F` the result no longer changes, and from
any loop state with a non-empty best solution the loop completes with a
result at fuel `F`. -/
theorem claim3_search_loop_terminates (cfg : Config) (profit w : List ℕ)
    (cap k : ℕ) (tape : RandTape)
    (hcr : 0 < cfg.cooling_rate) (hTmin : 0 < cfg.T_min)
    (hiter : 1 ≤ cfg.iter_max) (hlimit : 1 ≤ cfg.no_improve_limit)
    (st : SAState) :
    ∃ F, 0 < F ∧
      (∀ f, F ≤ f → run_loop cfg profit w cap k tape f st
        = run_loop cfg profit w cap k tape F st) ∧
      (1 ≤ st.best_solution.length →
        (run_loop cfg profit w cap k tape F st).isSome) := by
  have hr : (1 : ℝ) < 1 + cfg.cooling_rate * Real.sqrt cfg.T_min := by
    have := mul_pos hcr (Real.sqrt_pos.mpr hTmin)
    linarith
  obtain ⟨M, hM⟩ : ∃ M, st.temperature
      ≤ cfg.T_min * (1 + cfg.cooling_rate * Real.sqrt cfg.T_min) ^ M := by
    rcases le_or_lt st.temperature cfg.T_min with hle | hgt
    · exact ⟨0, by rw [pow_zero, mul_one]; exact hle⟩
    · obtain ⟨n, hn⟩ := pow_unbounded_of_one_lt
        (st.temperature / cfg.T_min) hr
      refine ⟨n, ?_⟩
      rw [div_lt_iff₀ hTmin] at hn
      exact le_of_lt (lt_of_lt_of_eq hn (mul_comm _ _))
  obtain ⟨heq, hsome⟩ := run_loop_stabilizes hcr hTmin hiter M st hM
  exact ⟨M + 1, by omega, heq, fun hL => hsome st.best_solution.length hL rfl⟩

/-- Witness for C3 at a concrete configuration (coolingRate 1, one inner
iteration, floor 1/2, stagnation limit 1) and state `stA`. -/
theorem claim3_witness :
    ∃ F, 0 < F ∧
      (∀ f, F ≤ f → run_loop (SA_init 1 1 (1/2) 1) [0] [1] 1 1 tape0 f stA
        = run_loop (SA_init 1 1 (1/2) 1) [0] [1] 1 1 tape0 F stA) ∧
      (1 ≤ stA.best_solution.length →
        (run_loop (SA_init 1 1 (1/2) 1) [0] [1] 1 1 tape0 F stA).isSome) :=
  claim3_search_loop_terminates (SA_init 1 1 (1/2) 1) [0] [1] 1 1 tape0
    (by norm_num [SA_init]) (by norm_num [SA_init]) (by norm_num [SA_init])
    (by norm_num [SA_init]) stA

/-- C4 counterexample: constructing with `cooling_rate = -1` succeeds — the
value is stored unchanged — and `run` then completes normally, returning a
solution on a concrete instance.  No ConfigurationError is raised anywhere,
so the claim that `run` fails before generating any solution is false. -/
theorem claim4_counterexample :
    (SA_init (-1) 100 (1/1000) 10).cooling_rate = -1 ∧
    run (SA_init (-1) 100 (1/1000) 10) 1 [0] [1] tape0 1 = some ([1], 0) :=
  ⟨rfl, run_instA_eval _ (by norm_num [SA_init])⟩

/-- C4 amended: the source performs no configuration validation at all:
`__init__` stores every coolingRate (non-positive included) unchanged —
nothing is clamped and no ConfigurationError exists — and `run` proceeds to
generate solutions, completing normally on a concrete instance for every
coolingRate value. -/
theorem claim4_no_validation (cr : ℝ) :
    (SA_init cr 100 (1/1000) 10).cooling_rate = cr ∧
    run (SA_init cr 100 (1/1000) 10) 1 [0] [1] tape0 1 = some ([1], 0) :=
  ⟨rfl, run_instA_eval _ (by norm_num [SA_init])⟩

/-- C5 counterexample: on an `n = 0` instance `run` does not return
`([], 0)`; it fails (modelled `none`) because `initial_temperature` calls
`generate_neighbors`, which executes `random.randint(0, -1)` on the empty
solution — a `ValueError`. -/
theorem claim5_counterexample :
    run defaultConfig 10 [] [] tape0 5 = none ∧
    run defaultConfig 10 [] [] tape0 5 ≠ some ([], 0) := by
  have h := run_empty_instance defaultConfig 10 tape0 5
  refine ⟨h, ?_⟩
  rw [h]
  intro hc
  cases hc

/-- C5 amended: on an `n = 0` instance the greedy constructor does yield the
empty solution, but `run` then fails inside `generate_neighbors` (randint on
an empty range) while deriving the initial temperature — for every
configuration, capacity, tape and fuel — and never returns `([], 0)`. -/
theorem claim5_empty_instance_fails (cfg : Config) (cap : ℕ) (tape : RandTape)
    (fuel : ℕ) :
    generate_initial_solution cap [] [] = some [] ∧
    run cfg cap [] [] tape fuel = none :=
  ⟨generate_initial_solution_empty cap, run_empty_instance cfg cap tape fuel⟩

/-- C6 counterexample: on the valid instance `capacity 5, profit [1],
weight [0]` (non-negative entries, equal lengths) the Solution Constructor
fails: the ranking key computes `profit[0] / weight[0]`, dividing by zero
(modelled `none`), refuting the claim that it cannot fail when some item's
weight is 0. -/
theorem claim6_counterexample :
    generate_initial_solution 5 [1] [0] = none := rfl

/-- C6 amended: for every valid instance in which every item's weight is
non-zero, the Solution Constructor succeeds with no further precondition and
returns a binary feasible solution of the instance's length; with a
zero-weight item present the ratio computation raises ZeroDivisionError
instead. -/
theorem claim6_constructor_feasible (cap : ℕ) (profit w : List ℕ)
    (hnz : ∀ i ∈ List.range profit.length, w.getD i 0 ≠ 0) :
    ∃ sol, generate_initial_solution cap profit w = some sol ∧
      IsBinary sol ∧ solWeight w sol ≤ cap ∧ sol.length = profit.length := by
  obtain ⟨sol, hsol⟩ := generate_initial_solution_total hnz
  obtain ⟨hb, hcap, hlen⟩ := generate_initial_solution_spec hsol
  exact ⟨sol, hsol, hb, hcap, hlen⟩

/-- Witness for the amended C6 on `capacity 1, profit [1], weight [1]`. -/
theorem claim6_witness :
    ∃ sol, generate_initial_solution 1 [1] [1] = some sol ∧
      IsBinary sol ∧ solWeight [1] sol ≤ 1 ∧
      sol.length = List.length ([1] : List ℕ) :=
  claim6_constructor_feasible 1 [1] [1] (by decide)

/-- C7: for every feasible binary input solution over a valid instance with
`n ≥ 1` items, `generate_neighbors` succeeds and returns exactly
`max(1, floor(0.15 * n))` neighbors (`0.15` modelled as `3 / 20`) — never
fewer — and every returned neighbor is feasible. -/
theorem claim7_generate_neighbors_exact_and_feasible
    (w : List ℕ) (cap n : ℕ) (tape : RandTape) (sol : Solution) (ctr : ℕ)
    (hb : IsBinary sol) (hfeas : solWeight w sol ≤ cap)
    (hsol : sol.length = n) (hw : w.length = n) (hn : 1 ≤ n) :
    ∃ nbs ctr2,
      generate_neighbors w cap (calculate_number_of_neighbors n) tape sol ctr
        = some (nbs, ctr2) ∧
      nbs.length = max 1 (3 * n / 20) ∧ 1 ≤ nbs.length ∧
      ∀ nb ∈ nbs, solWeight w nb ≤ cap := by
  have h1 : 1 ≤ sol.length := by omega
  obtain ⟨nbs, ctr2, hgen⟩ := generate_neighbors_total h1 ctr
  obtain ⟨hcount, hlenall, hfeasall⟩ := generate_neighbors_sound hgen
  refine ⟨nbs, ctr2, hgen, ?_, ?_, fun nb hnb => (hfeasall hb nb hnb).2⟩
  · rw [hcount]; rfl
  · rw [hcount]; exact Nat.le_max_left ..

/-- Witness for C7 at `weight [1], capacity 1`, input solution `[1]`. -/
theorem claim7_witness :
    ∃ nbs ctr2,
      generate_neighbors [1] 1 (calculate_number_of_neighbors 1) tape0 [1] 0
        = some (nbs, ctr2) ∧
      nbs.length = max 1 (3 * 1 / 20) ∧ 1 ≤ nbs.length ∧
      ∀ nb ∈ nbs, solWeight [1] nb ≤ 1 :=
  claim7_generate_neighbors_exact_and_feasible [1] 1 1 tape0 [1] 0
    (by unfold IsBinary; decide) (by decide) rfl rfl (by omega)

/-- C8: the Acceptance Criterion always runs at strictly positive
temperature.  Processing a neighborhood batch never changes the temperature
(every `check_acceptance` of a batch sees the batch-entry temperature), and
after any number of inner iterations from a state satisfying the outer loop
condition — i.e., mid-inner-loop, after the cooling steps taken since the
last outer check — the temperature equals the cooled iterate of the entry
temperature and is strictly positive. -/
theorem claim8_acceptance_temperature_positive (cfg : Config)
    (profit w : List ℕ) (cap k : ℕ) (tape : RandTape)
    (hcr : 0 < cfg.cooling_rate) (hTmin : 0 < cfg.T_min) (st : SAState)
    (hT : st.temperature > cfg.T_min) :
    (∀ (nbs : List Solution) (st0 : SAState),
      (nbs.foldl (accept_neighbor profit tape) st0).temperature
        = st0.temperature) ∧
    (∀ (m : ℕ) (st1 : SAState),
      inner_loop cfg profit w cap k tape m
        { st with solution := st.best_solution, cost := st.best_cost }
        = some st1 →
      st1.temperature = (cooling cfg.cooling_rate)^[m] st.temperature ∧
        0 < st1.temperature) := by
  constructor
  · exact foldl_accept_temperature profit tape
  · intro m st1 h
    have ht := inner_loop_temperature h
    have hpos : (0 : ℝ) < st.temperature := lt_trans hTmin hT
    have h2 : st1.temperature = (cooling cfg.cooling_rate)^[m] st.temperature := ht
    exact ⟨h2, h2 ▸ cooling_iterate_pos hcr.le m hpos⟩

/-- Witness for C8: applied at the state `stA` (temperature 1) with
coolingRate 1 and floor 1/2, zero inner iterations. -/
theorem claim8_witness :
    (0 : ℝ) < ({ stA with
      solution := stA.best_solution
      cost := stA.best_cost } : SAState).temperature :=
  ((claim8_acceptance_temperature_positive (SA_init 1 1 (1/2) 1) [0] [1] 1 1
      tape0 (by norm_num [SA_init]) (by norm_num [SA_init]) stA
      (by norm_num [SA_init, stA])).2 0 _ rfl).2

/-- C9: the Cooling Schedule is monotonically non-increasing, and in fact
strictly decreasing for every positive temperature and coolingRate:
`T / (1 + coolingRate * sqrt T) < T`. -/
theorem claim9_cooling_decreases (cr T : ℝ) (hcr : 0 < cr) (hT : 0 < T) :
    cooling cr T < T ∧ cooling cr T ≤ T :=
  ⟨cooling_lt_self hcr hT, le_of_lt (cooling_lt_self hcr hT)⟩

/-- Witness for C9 at `coolingRate = 1`, `T = 1`. -/
theorem claim9_witness : cooling 1 1 < 1 ∧ cooling 1 1 ≤ 1 :=
  claim9_cooling_decreases 1 1 (by norm_num) (by norm_num)

/-- C10: with strictly positive temperature, an equal-cost candidate is
always accepted — the acceptance probability is `exp(0) = 1` and every
uniform draw in `[0, 1)` lies below it — consuming exactly one uniform draw;
consequently an accepted equal-cost move (working cost not above the best
cost) increments the no-improvement counter by one. -/
theorem claim10_equal_cost_accepted (profit : List ℕ) (tape : RandTape)
    (st : SAState) (nb : Solution) (hT : 0 < st.temperature)
    (hu0 : 0 ≤ tape.uniforms st.ctr) (hu1 : tape.uniforms st.ctr < 1)
    (hc : calculate_cost profit nb = st.cost) (hbc : st.cost ≤ st.best_cost) :
    check_acceptance st.temperature tape st.cost st.cost st.ctr
      = (true, st.ctr + 1) ∧
    (accept_neighbor profit tape st nb).no_improve_count
      = st.no_improve_count + 1 := by
  have hacc : check_acceptance st.temperature tape st.cost st.cost st.ctr
      = (true, st.ctr + 1) := by
    unfold check_acceptance
    rw [if_neg (lt_irrefl st.cost)]
    simp only [sub_self, zero_div, Real.exp_zero, Prod.mk.injEq]
    exact ⟨decide_eq_true hu1, trivial⟩
  refine ⟨hacc, ?_⟩
  unfold accept_neighbor
  dsimp only
  rw [hc, hacc]
  dsimp only
  rw [if_pos rfl, if_neg (not_lt.mpr hbc)]

/-- Witness for C10 at state `stA` (temperature 1, cost 0 = best cost) and
the zero-cost neighbor `[0]` with the all-zeros tape. -/
theorem claim10_witness :
    check_acceptance stA.temperature tape0 stA.cost stA.cost stA.ctr
      = (true, stA.ctr + 1) ∧
    (accept_neighbor [0] tape0 stA [0]).no_improve_count
      = stA.no_improve_count + 1 :=
  claim10_equal_cost_accepted [0] tape0 stA [0] (by norm_num [stA])
    (by norm_num [tape0]) (by norm_num [tape0]) (by decide) (by decide)

end KnapsackSA
